import Mathlib

/-!
Shallow embedding of `src/prebloom_scout.py` (pre-bloom ticker scout).

Python strings are modelled as Lean `String` (a structure over `List Char`);
the Python string operations used by the script (`upper`, `strip`, `split`,
`splitlines`, `startswith`, substring containment, `isalpha`, slicing,
`lstrip`) are modelled as structurally recursive functions on the underlying
character list, so that every definition reduces in the kernel.  Python's
Unicode-aware `isalpha`/`\w` are modelled by their ASCII cores, which is
exact on the A–Z/$ tokens the script manipulates.  Python floats are
modelled as rationals; dictionaries and `Counter`s as total functions with
`Option`/zero defaults; fatal network or parse errors as `Option`.
-/

namespace PrebloomScout

/-- ASCII model of Python `str.upper` applied to one character
(the script only ever uppercases before matching `[A-Z]`). -/
def pyUpperChar (c : Char) : Char := Char.toUpper c

/-- Model of Python `str.upper`. -/
def pyUpper (s : String) : String := ⟨s.data.map pyUpperChar⟩

/-- Whitespace trim on a character list (both ends), modelling `str.strip()`. -/
def trimList (l : List Char) : List Char :=
  ((l.dropWhile Char.isWhitespace).reverse.dropWhile Char.isWhitespace).reverse

/-- Model of Python `str.strip()`. -/
def pyStrip (s : String) : String := ⟨trimList s.data⟩

/-- Split a character list on a separator character, keeping empty pieces,
modelling Python `str.split(sep)` for a one-character separator. -/
def splitOnChar (sep : Char) : List Char → List (List Char)
  | [] => [[]]
  | c :: rest =>
    if c = sep then [] :: splitOnChar sep rest
    else
      match splitOnChar sep rest with
      | [] => [[c]]
      | g :: gs => (c :: g) :: gs

/-- Model of Python `str.split(sep)` for a one-character separator. -/
def pySplit (s : String) (sep : Char) : List String :=
  (splitOnChar sep s.data).map (fun l => ⟨l⟩)

/-- Is `p` a prefix of `l`?  (Executable, structural.) -/
def listPrefixOf : List Char → List Char → Bool
  | [], _ => true
  | _ :: _, [] => false
  | a :: as, b :: bs => a = b && listPrefixOf as bs

/-- Model of Python `str.startswith`. -/
def pyStartsWith (s p : String) : Bool := listPrefixOf p.data s.data

/-- Does `needle` occur as a contiguous sublist of `hay`? -/
def containsSub (needle : List Char) : List Char → Bool
  | [] => needle.isEmpty
  | c :: rest => listPrefixOf needle (c :: rest) || containsSub needle rest

/-- Model of the Python substring test `k in s`. -/
def pyInStr (k s : String) : Bool := containsSub k.data s.data

/-- ASCII model of Python `str.isalpha` on one character. -/
def pyCharIsAlpha (c : Char) : Bool :=
  decide ((65 ≤ c.toNat ∧ c.toNat ≤ 90) ∨ (97 ≤ c.toNat ∧ c.toNat ≤ 122))

/-- Model of Python `str.isalpha` (nonempty and every character alphabetic). -/
def pyStrIsAlpha (s : String) : Bool :=
  !s.data.isEmpty && s.data.all pyCharIsAlpha

/-- Model of Python `list.index`, returning `none` where Python raises
`ValueError`. -/
def pyIndex (x : String) : List String → Option Nat
  | [] => none
  | y :: ys => if y = x then some 0 else (pyIndex x ys).map (· + 1)

/-! ## Constants from the source (sections 3 of the script) -/

/-- `EXCLUDE_TICKERS` from the source: manually excluded symbols. -/
def EXCLUDE_TICKERS : List String :=
  ["AAPL", "MSFT", "AMZN", "GOOG", "GOOGL", "META", "NVDA", "AMD", "TSLA", "NFLX",
   "ORCL", "INTC", "CSCO", "IBM", "ADBE", "CRM", "QCOM", "AVGO", "TXN",
   "SPY", "QQQ", "DIA", "IWM", "VTI",
   "GME", "AMC", "BB", "NOK", "PLTR",
   "COIN", "MARA", "RIOT"]

/-- `STOPWORDS` from the source: acronyms that look like tickers. -/
def STOPWORDS : List String :=
  ["A", "I", "DD", "CEO", "CFO", "USA", "US", "GDP", "IPO", "AI", "EV", "FOMO", "YOLO",
   "SEC", "FED", "IMO", "TLDR", "EDIT", "WSB", "NYSE", "NASDAQ",
   "THE", "AND", "OR", "FOR", "WITH", "THIS", "THAT"]

/-- `BIOTECH_KEYWORDS` from the source. -/
def BIOTECH_KEYWORDS : List String :=
  ["BIOTECH", "BIO TECH", "BIOSCIENCE", "BIOSCIENCES", "BIOSCI", "BIOPHARMA", "BIO-PHARMA",
   "PHARMA", "PHARMACEUT", "THERAPEUT", "THERAPEUTICS",
   "ONCO", "ONCOLOGY", "GENOM", "GENE", "IMMUNO", "VACCINE",
   "CLINICAL", "DRUG", "MEDICINES"]

/-- `ADR_KEYWORDS` from the source. -/
def ADR_KEYWORDS : List String :=
  ["AMERICAN DEPOSITARY", "DEPOSITARY SHARES", "DEPOSITARY RECEIPT", "ADR", "ADS"]

/-- `MIN_RECENT_MENTIONS` from the source. -/
def MIN_RECENT_MENTIONS : Nat := 3

/-- `MAX_OLD_MENTIONS_31_90` from the source. -/
def MAX_OLD_MENTIONS_31_90 : Nat := 25

/-- `MAX_TOTAL_MENTIONS` from the source. -/
def MAX_TOTAL_MENTIONS : Nat := 120

/-- The source's minimum momentum constant (`1.8` in the script),
modelled as the exact rational 9/5. -/
def MIN_MOMENTUM_CUTOFF : ℚ := 9 / 5

/-! ## Symbol registry (`_parse_pipe_file`, `load_symbol_metadata`) -/

/-- Per-symbol metadata record: the `{"name": ..., "is_etf": ...}` dict
built by `load_symbol_metadata`. -/
structure SymInfo where
  name : String
  is_etf : Bool
deriving DecidableEq, Repr

/-- Model of `_parse_pipe_file`: split into nonblank lines, take the first
as header, drop `File Creation Time` footer lines, split the rest on `|`.
Returns `none` where Python would raise an `IndexError` on empty input. -/
def parsePipeFile (text : String) : Option (List String × List (List String)) :=
  let lines := (pySplit text '\n').filter (fun ln => pyStrip ln != "")
  match lines with
  | [] => none
  | l0 :: restLines =>
    some (pySplit l0 '|',
      (restLines.filter (fun ln => !(pyStartsWith ln "File Creation Time"))).map
        (fun ln => pySplit ln '|'))

/-- One row of the first (`nasdaqlisted.txt`) loop of `load_symbol_metadata`:
skip short rows, strip/uppercase the symbol, and on acceptance add it to the
verified set and overwrite its metadata. -/
def row1Step (symI nameI etfI : Nat)
    (acc : List String × (String → Option SymInfo)) (parts : List String) :
    List String × (String → Option SymInfo) :=
  if parts.length ≤ max symI (max nameI etfI) then acc
  else
    let sym := pyUpper (pyStrip (parts.getD symI ""))
    let nm := pyStrip (parts.getD nameI "")
    let isEtf := pyUpper (pyStrip (parts.getD etfI "")) = "Y"
    if sym ≠ "" ∧ pyStrIsAlpha sym = true then
      (acc.1 ++ [sym], fun s => if s = sym then some ⟨nm, isEtf⟩ else acc.2 s)
    else acc

/-- Model of Python `dict.setdefault(sym, v)` on the metadata mapping:
store `v` under `sym` only when `sym` has no entry yet. -/
def setdefaultUpdate (m : String → Option SymInfo) (sym : String) (v : SymInfo) :
    String → Option SymInfo :=
  if m sym = none then fun s => if s = sym then some v else m s else m

/-- One row of the second (`otherlisted.txt`) loop of `load_symbol_metadata`:
same acceptance test, but metadata is stored with `setdefault` (only when the
symbol has no metadata yet). -/
def row2Step (symI nameI etfI : Nat)
    (acc : List String × (String → Option SymInfo)) (parts : List String) :
    List String × (String → Option SymInfo) :=
  if parts.length ≤ max symI (max nameI etfI) then acc
  else
    let sym := pyUpper (pyStrip (parts.getD symI ""))
    let nm := pyStrip (parts.getD nameI "")
    let isEtf := pyUpper (pyStrip (parts.getD etfI "")) = "Y"
    if sym ≠ "" ∧ pyStrIsAlpha sym = true then
      (acc.1 ++ [sym], setdefaultUpdate acc.2 sym ⟨nm, isEtf⟩)
    else acc

/-- The first loop of `load_symbol_metadata` over the parsed
`nasdaqlisted.txt` rows, starting from the empty universe and metadata. -/
def loadRows1 (symI nameI etfI : Nat) (rows : List (List String)) :
    List String × (String → Option SymInfo) :=
  rows.foldl (row1Step symI nameI etfI) ([], fun _ => none)

/-- Model of `load_symbol_metadata` as a function of the two fetched texts
(nasdaqlisted.txt and otherlisted.txt).  Network and header-lookup failures,
fatal in the script, are `none`.  The verified set is modelled as the list of
accepted symbols (membership is what matters); the metadata dict as a total
function into `Option SymInfo`. -/
def load_symbol_metadata (txt1 txt2 : String) :
    Option (List String × (String → Option SymInfo)) :=
  match parsePipeFile txt1 with
  | none => none
  | some (h1, rows1) =>
    match pyIndex "Symbol" h1, pyIndex "Security Name" h1, pyIndex "ETF" h1 with
    | some symI, some nameI, some etfI =>
      match parsePipeFile txt2 with
      | none => none
      | some (h2, rows2) =>
        match pyIndex "ACT Symbol" h2, pyIndex "Security Name" h2, pyIndex "ETF" h2 with
        | some symI2, some nameI2, some etfI2 =>
          some (rows2.foldl (row2Step symI2 nameI2 etfI2) (loadRows1 symI nameI etfI rows1))
        | _, _, _ => none
    | _, _, _ => none

/-! ## Category filter (`security_name_has_any`, `passes_category_filters`) -/

/-- Model of `security_name_has_any`. -/
def security_name_has_any (nm : String) (keywords : List String) : Bool :=
  if nm = "" then false
  else keywords.any (fun k => pyInStr k (pyUpper nm))

/-- The module-level filter switches and keyword lists of the script
(`EXCLUDE_ETFS`, `EXCLUDE_ADRS`, `EXCLUDE_BIOTECH`, `ADR_KEYWORDS`,
`BIOTECH_KEYWORDS`), made an explicit configuration value. -/
structure FilterConfig where
  excludeETFs : Bool
  excludeADRs : Bool
  excludeBiotech : Bool
  adrKeywords : List String
  biotechKeywords : List String

/-- The configuration the script actually runs with. -/
def defaultFilterConfig : FilterConfig :=
  ⟨true, true, true, ADR_KEYWORDS, BIOTECH_KEYWORDS⟩

/-- Model of `passes_category_filters`.  A symbol with no metadata passes. -/
def passes_category_filters (cfg : FilterConfig) (ticker : String)
    (meta : String → Option SymInfo) : Bool :=
  match meta ticker with
  | none => true
  | some info =>
    if cfg.excludeETFs && info.is_etf then false
    else if cfg.excludeADRs && security_name_has_any info.name cfg.adrKeywords then false
    else if cfg.excludeBiotech && security_name_has_any info.name cfg.biotechKeywords then false
    else true

/-! ## Token extractor (`TICKER_RE`, `extract_tickers`) -/

/-- Does `c` match the regex class `[A-Z]`? -/
def isUpperLetter (c : Char) : Bool := decide (65 ≤ c.toNat ∧ c.toNat ≤ 90)

/-- ASCII model of a regex word character (`[A-Za-z0-9_]`), used for the
`\b` boundary of `TICKER_RE`. -/
def isWordChar (c : Char) : Bool :=
  decide ((65 ≤ c.toNat ∧ c.toNat ≤ 90) ∨ (97 ≤ c.toNat ∧ c.toNat ≤ 122) ∨
          (48 ≤ c.toNat ∧ c.toNat ≤ 57) ∨ c.toNat = 95)

/-- Match the tail of `TICKER_RE` (the part after the optional sigil) at the
head of `s`.  The greedy `[A-Z]\x7b1,6\x7d` followed by `\b` succeeds exactly
when the maximal uppercase run at the head has length 1–6 and the character
after it (if any) is not a word character: a shorter run would put the
boundary between two letters.  Returns the matched run and the remainder of
the input (the boundary consumes nothing). -/
def matchRun (s : List Char) : Option (List Char × List Char) :=
  let r := s.takeWhile isUpperLetter
  if 1 ≤ r.length ∧ r.length ≤ 6 then
    match s.drop r.length with
    | [] => some (r, [])
    | c :: rest => if isWordChar c then none else some (r, c :: rest)
  else none

/-- Try to match `TICKER_RE` (`\$?[A-Z]\x7b1,6\x7d\b`) at the head of `s`.
When the head is `'$'` the greedy optional sigil is consumed first; if the
letter run then fails, backtracking to the empty sigil also fails because
`'$'` is not a letter. -/
def tryMatch : List Char → Option (List Char × List Char)
  | [] => none
  | c :: s2 =>
    if c = '$' then
      match matchRun s2 with
      | some (tok, rest) => some ('$' :: tok, rest)
      | none => none
    else matchRun (c :: s2)

/-- Scan for all non-overlapping matches of `TICKER_RE`, left to right,
resuming after each match, as `re.findall` does.  The fuel argument only
bounds the recursion for the termination checker; every step consumes at
least one character, so fuel `s.length` (as used by `findall`) never runs
out. -/
def findallAux : Nat → List Char → List (List Char)
  | 0, _ => []
  | _ + 1, [] => []
  | fuel + 1, c :: rest =>
    match tryMatch (c :: rest) with
    | some (tok, rem) => tok :: findallAux fuel rem
    | none => findallAux fuel rest

/-- Model of `TICKER_RE.findall`. -/
def findall (s : List Char) : List (List Char) := findallAux s.length s

/-- Model of Python `str.lstrip("$")` on the character list of a match. -/
def lstripDollar (l : List Char) : List Char := l.dropWhile (fun c => c = '$')

/-- Model of `extract_tickers`: uppercase the text, find all regex hits,
strip the sigil, then drop stopwords, manually excluded tickers, tokens that
are not 1–5 alphabetic characters of the verified universe, and tokens
failing the category filter. -/
def extract_tickers (cfg : FilterConfig) (text : String) (verified : List String)
    (meta : String → Option SymInfo) : List String :=
  if text = "" then []
  else
    (findall (pyUpper text).data).filterMap (fun h =>
      let t : String := ⟨lstripDollar h⟩
      if t ∈ STOPWORDS then none
      else if t ∈ EXCLUDE_TICKERS then none
      else if ¬(1 ≤ t.length ∧ t.length ≤ 5 ∧ pyStrIsAlpha t = true ∧ t ∈ verified) then none
      else if passes_category_filters cfg t meta = false then none
      else some t)

/-! ## Age bucketing (`bucket_for_age_days`) -/

/-- Model of `bucket_for_age_days`. -/
def bucket_for_age_days (age_days : Int) : String :=
  if age_days ≤ 7 then "0_7"
  else if age_days ≤ 30 then "8_30"
  else "31_90"

/-! ## Mention aggregation (the `counts` / `per_sub` / `sample_titles`
state of `main`, lines 240–296) -/

/-- The aggregation state of `main`: the three bucketed `Counter`s (indexed
here by bucket key then ticker), the per-subreddit `Counter`s, and the
sample-title lists.  `Counter`/`defaultdict` lookups default to 0 / `[]`,
so the state is modelled by total functions. -/
structure AggState where
  counts : String → String → Nat
  perSub : String → String → Nat
  samples : String → List (String × String)

/-- The empty aggregation state at the start of `main`. -/
def initAgg : AggState := ⟨fun _ _ => 0, fun _ _ => 0, fun _ => []⟩

/-- Model of the Python slice `title[:140]`. -/
def pySlice140 (s : String) : String := ⟨s.data.take 140⟩

/-- One extracted ticker of a post (lines 267–271): bump the bucket and
per-subreddit counters and, while fewer than 3 samples are stored for the
ticker, append the (subreddit, truncated title) pair. -/
def recordPostMention (st : AggState) (b t sub title : String) : AggState where
  counts := fun b2 t2 => if b2 = b ∧ t2 = t then st.counts b t + 1 else st.counts b2 t2
  perSub := fun t2 s2 => if t2 = t ∧ s2 = sub then st.perSub t sub + 1 else st.perSub t2 s2
  samples := fun t2 =>
    if t2 = t then
      if (st.samples t).length < 3 then st.samples t ++ [(sub, pySlice140 title)]
      else st.samples t
    else st.samples t2

/-- One extracted ticker of a comment (lines 290–292): bump the bucket and
per-subreddit counters; the comment loop never touches `sample_titles`. -/
def recordCommentMention (st : AggState) (b t sub : String) : AggState where
  counts := fun b2 t2 => if b2 = b ∧ t2 = t then st.counts b t + 1 else st.counts b2 t2
  perSub := fun t2 s2 => if t2 = t ∧ s2 = sub then st.perSub t sub + 1 else st.perSub t2 s2
  samples := st.samples

/-- Whether a mention came from a post or a top-level comment. -/
inductive MentionKind where
  | post
  | comment
deriving DecidableEq

/-- One confirmed ticker mention, as consumed by the aggregation code of
`main`: the kind of source item, its age in days, the ticker, the subreddit,
and the context snippet (the post title for posts). -/
structure MentionEvent where
  kind : MentionKind
  ageDays : Int
  ticker : String
  sourceGroup : String
  snippet : String

/-- Process one mention event as `main` does: bucket the age, then apply the
post or comment recording step. -/
def processMention (st : AggState) (ev : MentionEvent) : AggState :=
  match ev.kind with
  | .post => recordPostMention st (bucket_for_age_days ev.ageDays) ev.ticker ev.sourceGroup ev.snippet
  | .comment => recordCommentMention st (bucket_for_age_days ev.ageDays) ev.ticker ev.sourceGroup

/-! ## Scorer / ranker (lines 301–334 of `main`) -/

/-- One output row `(t, name, a, b, c, total, mom_short, mom_long, score)`. -/
structure CandidateRow where
  ticker : String
  name : String
  recent : Nat
  mid : Nat
  old : Nat
  total : Nat
  momShort : ℚ
  momLong : ℚ
  score : ℚ
deriving DecidableEq, Repr

/-- The per-ticker body of the candidate loop (lines 305–332): read the three
bucket counts, apply the four pre-bloom threshold tests (a failed test is a
`continue`, i.e. `none`), and otherwise build the output row with the
smoothed momentum ratios and the composite score.  `2.0`, `3.0` and `0.25`
are the exact rationals 2, 3 and 1/4. -/
def prebloomRow (meta : String → Option SymInfo) (counts : String → String → Nat)
    (t : String) : Option CandidateRow :=
  let a := counts "0_7" t
  let b := counts "8_30" t
  let c := counts "31_90" t
  let total := a + b + c
  let momShort : ℚ := ((a : ℚ) + 1) / ((b : ℚ) + 1)
  let momLong : ℚ := ((a : ℚ) + 1) / ((c : ℚ) + 1)
  if a < MIN_RECENT_MENTIONS then none
  else if MAX_OLD_MENTIONS_31_90 < c then none
  else if MAX_TOTAL_MENTIONS < total then none
  else if momLong < MIN_MOMENTUM_CUTOFF then none
  else
    let score : ℚ := (a : ℚ) * 2 + momLong * 3 - (c : ℚ) * (1 / 4)
    let nm := match meta t with
      | some info => info.name
      | none => ""
    some ⟨t, nm, a, b, c, total, momShort, momLong, score⟩

/-- Insert a row into a list already sorted by non-increasing score, before
the first row of smaller-or-equal score.  Earlier rows stay ahead of
later-inserted rows with equal score, which is exactly the stable descending
order of `rows.sort(key=..., reverse=True)` on line 334. -/
def insertByScore (r : CandidateRow) : List CandidateRow → List CandidateRow
  | [] => [r]
  | x :: xs => if x.score ≤ r.score then r :: x :: xs else x :: insertByScore r xs

/-- Stable sort by non-increasing score, modelling line 334. -/
def sortByScoreDesc : List CandidateRow → List CandidateRow
  | [] => []
  | r :: rs => insertByScore r (sortByScoreDesc rs)

/-- The ranking pipeline of `main` (lines 301–334): build the surviving rows
over the tickers with at least one counted mention (`all_tickers`, passed
here as a list) and sort them by descending score. -/
def rankCandidates (meta : String → Option SymInfo) (counts : String → String → Nat)
    (allTickers : List String) : List CandidateRow :=
  sortByScoreDesc (allTickers.filterMap (prebloomRow meta counts))

/-! ## Derived definitions and concrete data used by the theorems -/

/-- The verified-universe component of `load_symbol_metadata`. -/
def loadVerified (txt1 txt2 : String) : Option (List String) :=
  (load_symbol_metadata txt1 txt2).map Prod.fst

/-- The invariant the registry establishes for one accepted symbol:
nonempty, alphabetic, uppercase. -/
def cleanSymbol (s : String) : Prop :=
  1 ≤ s.length ∧ s.data.all pyCharIsAlpha = true ∧ s.data.all isUpperLetter = true

/-- A `nasdaqlisted.txt`-shaped input carrying a six-letter symbol. -/
def txt1C5 : String := "Symbol|Security Name|ETF\nABCDEF|Foo Inc.|N\nFile Creation Time: 0101"

/-- An `otherlisted.txt`-shaped input with one ordinary row. -/
def txt2C5 : String := "ACT Symbol|Security Name|ETF\nQRS|Bar Corp.|N"

/-- The spec scenario universe: only `ABCD`, a non-ETF named `Abcd Inc.`. -/
def scenarioMeta : String → Option SymInfo :=
  fun t => if t = "ABCD" then some ⟨"Abcd Inc.", false⟩ else none

/-- Counts for the spec scenario `recent=5, mid=0, old=0`. -/
def scenarioCounts28 : String → String → Nat :=
  fun b t => if b = "0_7" ∧ t = "ABCD" then 5 else 0

/-- The row the scorer produces for `recent=5, mid=0, old=0`:
`momLong = 6`, `score = 28`. -/
def scenarioRow28 : CandidateRow := ⟨"ABCD", "Abcd Inc.", 5, 0, 0, 5, 6, 6, 28⟩

/-- Counts for the spec scenario `recent=4, mid=0, old=2` (fails the
momentum threshold: 5/3 < 9/5). -/
def scenarioCountsFail : String → String → Nat :=
  fun b t =>
    if b = "0_7" ∧ t = "ABCD" then 4
    else if b = "31_90" ∧ t = "ABCD" then 2
    else 0

/-- A concrete comment mention: `ABCD` mentioned in a 45-day-old comment in
r/stocks. -/
def evC6comment : MentionEvent := ⟨.comment, 45, "ABCD", "stocks", "great writeup"⟩

/-- A concrete post mention: `ABCD` mentioned in a 1-day-old post in
r/stocks. -/
def evC6post : MentionEvent := ⟨.post, 1, "ABCD", "stocks", "Nice title"⟩

/-- Rows for the C7 witness: `ABCD` listed by both sources with different
names and ETF flags. -/
def rows1C7 : List (List String) := [["ABCD", "First Inc.", "N"]]

/-- Second-source rows for the C7 witness. -/
def rows2C7 : List (List String) := [["ABCD", "Second Inc.", "Y"]]

/-! ## Helper lemmas about the ranking pipeline -/

theorem mem_insertByScore (x r : CandidateRow) (l : List CandidateRow) :
    x ∈ insertByScore r l ↔ x = r ∨ x ∈ l := by
  induction l with
  | nil => simp [insertByScore]
  | cons y ys ih =>
    by_cases hy : y.score ≤ r.score
    · simp [insertByScore, hy]
    · simp [insertByScore, hy, ih]
      tauto

theorem mem_sortByScoreDesc (x : CandidateRow) (l : List CandidateRow) :
    x ∈ sortByScoreDesc l ↔ x ∈ l := by
  induction l with
  | nil => simp [sortByScoreDesc]
  | cons y ys ih => simp [sortByScoreDesc, mem_insertByScore, ih]

theorem pairwise_insertByScore (r : CandidateRow) (l : List CandidateRow)
    (h : l.Pairwise (fun r1 r2 => r2.score ≤ r1.score)) :
    (insertByScore r l).Pairwise (fun r1 r2 => r2.score ≤ r1.score) := by
  induction l with
  | nil => simp [insertByScore]
  | cons y ys ih =>
    rcases List.pairwise_cons.mp h with ⟨hy, hys⟩
    by_cases hc : y.score ≤ r.score
    · simp only [insertByScore, if_pos hc]
      refine List.pairwise_cons.mpr ⟨?_, h⟩
      intro z hz
      rcases List.mem_cons.mp hz with rfl | hz2
      · exact hc
      · exact le_trans (hy z hz2) hc
    · simp only [insertByScore, if_neg hc]
      refine List.pairwise_cons.mpr ⟨?_, ih hys⟩
      intro z hz
      rcases (mem_insertByScore z r ys).mp hz with rfl | hz2
      · exact le_of_lt (lt_of_not_le hc)
      · exact hy z hz2

theorem pairwise_sortByScoreDesc (l : List CandidateRow) :
    (sortByScoreDesc l).Pairwise (fun r1 r2 => r2.score ≤ r1.score) := by
  induction l with
  | nil => simp [sortByScoreDesc]
  | cons y ys ih => exact pairwise_insertByScore y (sortByScoreDesc ys) ih

theorem prebloomRow_eq_some (meta : String → Option SymInfo)
    (counts : String → String → Nat) (t : String) (row : CandidateRow)
    (h : prebloomRow meta counts t = some row) :
    row.ticker = t ∧
    row.recent = counts "0_7" t ∧ row.mid = counts "8_30" t ∧
    row.old = counts "31_90" t ∧
    row.total = row.recent + row.mid + row.old ∧
    row.momShort = ((row.recent : ℚ) + 1) / ((row.mid : ℚ) + 1) ∧
    row.momLong = ((row.recent : ℚ) + 1) / ((row.old : ℚ) + 1) ∧
    row.score = (row.recent : ℚ) * 2 + row.momLong * 3 - (row.old : ℚ) * (1 / 4) := by
  simp only [prebloomRow] at h
  split at h
  · exact absurd h (by simp)
  split at h
  · exact absurd h (by simp)
  split at h
  · exact absurd h (by simp)
  split at h
  · exact absurd h (by simp)
  injection h with h
  subst h
  simp

theorem prebloomRow_some_iff (meta : String → Option SymInfo)
    (counts : String → String → Nat) (t : String) :
    (∃ row, prebloomRow meta counts t = some row) ↔
      (MIN_RECENT_MENTIONS ≤ counts "0_7" t ∧
       counts "31_90" t ≤ MAX_OLD_MENTIONS_31_90 ∧
       counts "0_7" t + counts "8_30" t + counts "31_90" t ≤ MAX_TOTAL_MENTIONS ∧
       MIN_MOMENTUM_CUTOFF ≤ ((counts "0_7" t : ℚ) + 1) / ((counts "31_90" t : ℚ) + 1)) := by
  by_cases h1 : counts "0_7" t < MIN_RECENT_MENTIONS
  · simp only [prebloomRow, if_pos h1]
    simp only [reduceCtorEq, exists_false, false_iff, not_and]
    intro hA
    omega
  by_cases h2 : MAX_OLD_MENTIONS_31_90 < counts "31_90" t
  · simp only [prebloomRow, if_neg h1, if_pos h2]
    simp only [reduceCtorEq, exists_false, false_iff, not_and]
    intro _ hB
    omega
  by_cases h3 : MAX_TOTAL_MENTIONS < counts "0_7" t + counts "8_30" t + counts "31_90" t
  · simp only [prebloomRow, if_neg h1, if_neg h2, if_pos h3]
    simp only [reduceCtorEq, exists_false, false_iff, not_and]
    intro _ _ hC
    omega
  by_cases h4 : ((counts "0_7" t : ℚ) + 1) / ((counts "31_90" t : ℚ) + 1) < MIN_MOMENTUM_CUTOFF
  · simp only [prebloomRow, if_neg h1, if_neg h2, if_neg h3, if_pos h4]
    simp only [reduceCtorEq, exists_false, false_iff, not_and]
    intro _ _ _ hD
    exact absurd h4 (not_lt.mpr hD)
  · simp only [prebloomRow, if_neg h1, if_neg h2, if_neg h3, if_neg h4,
      Option.some.injEq, exists_eq', true_iff]
    exact ⟨not_lt.mp h1, not_lt.mp h2, not_lt.mp h3, not_lt.mp h4⟩

theorem prebloomRow_scenario28 :
    prebloomRow scenarioMeta scenarioCounts28 "ABCD" = some scenarioRow28 := by
  simp [prebloomRow, scenarioMeta, scenarioCounts28, MIN_RECENT_MENTIONS,
        MAX_OLD_MENTIONS_31_90, MAX_TOTAL_MENTIONS, MIN_MOMENTUM_CUTOFF, scenarioRow28]
  norm_num

theorem rank_scenario28 :
    rankCandidates scenarioMeta scenarioCounts28 ["ABCD"] = [scenarioRow28] := by
  simp [rankCandidates, List.filterMap_cons, prebloomRow_scenario28,
        sortByScoreDesc, insertByScore]

/-! ## Claim theorems -/

/-- C9: the final candidate sequence is sorted in non-increasing order of
score: every adjacent pair of rows in `rankCandidates` output has the
earlier row's score greater than or equal to the later row's score. -/
theorem C9_sorted_descending (meta : String → Option SymInfo)
    (counts : String → String → Nat) (ts : List String) :
    List.Chain' (fun r1 r2 => r2.score ≤ r1.score) (rankCandidates meta counts ts) := by
  unfold rankCandidates
  exact List.Pairwise.chain' (pairwise_sortByScoreDesc _)

/-- C2: every row of the ranked output satisfies
`total = recent + mid + old`, `momShort = (recent+1)/(mid+1)`,
`momLong = (recent+1)/(old+1)` and
`score = recent*2 + momLong*3 - old*0.25`. -/
theorem C2_row_formulas (meta : String → Option SymInfo)
    (counts : String → String → Nat) (ts : List String) (row : CandidateRow)
    (h : row ∈ rankCandidates meta counts ts) :
    row.total = row.recent + row.mid + row.old ∧
    row.momShort = ((row.recent : ℚ) + 1) / ((row.mid : ℚ) + 1) ∧
    row.momLong = ((row.recent : ℚ) + 1) / ((row.old : ℚ) + 1) ∧
    row.score = (row.recent : ℚ) * 2 + row.momLong * 3 - (row.old : ℚ) * (1 / 4) := by
  unfold rankCandidates at h
  have h2 := (mem_sortByScoreDesc _ _).mp h
  rcases List.mem_filterMap.mp h2 with ⟨t, _, heq⟩
  have hfields := prebloomRow_eq_some meta counts t row heq
  exact ⟨hfields.2.2.2.2.1, hfields.2.2.2.2.2.1, hfields.2.2.2.2.2.2.1,
         hfields.2.2.2.2.2.2.2⟩

/-- C2 witness: on the spec scenario `recent=5, mid=0, old=0` the single
output row has `momLong = 6` and `score = 28`, and the formulas hold on it. -/
theorem C2_row_formulas_witness :
    scenarioRow28 ∈ rankCandidates scenarioMeta scenarioCounts28 ["ABCD"] ∧
    scenarioRow28.momLong = 6 ∧ scenarioRow28.score = 28 ∧
    (scenarioRow28.total = scenarioRow28.recent + scenarioRow28.mid + scenarioRow28.old ∧
     scenarioRow28.momShort = ((scenarioRow28.recent : ℚ) + 1) / ((scenarioRow28.mid : ℚ) + 1) ∧
     scenarioRow28.momLong = ((scenarioRow28.recent : ℚ) + 1) / ((scenarioRow28.old : ℚ) + 1) ∧
     scenarioRow28.score = (scenarioRow28.recent : ℚ) * 2 + scenarioRow28.momLong * 3 -
       (scenarioRow28.old : ℚ) * (1 / 4)) := by
  have hmem : scenarioRow28 ∈ rankCandidates scenarioMeta scenarioCounts28 ["ABCD"] := by
    rw [rank_scenario28]
    exact List.mem_singleton.mpr rfl
  exact ⟨hmem, rfl, rfl, C2_row_formulas scenarioMeta scenarioCounts28 ["ABCD"] scenarioRow28 hmem⟩

/-- C1: a ticker of `all_tickers` appears in the final ranked output iff all
four pre-bloom thresholds hold for its counts: `recent ≥ MIN_RECENT_MENTIONS`,
`old ≤ MAX_OLD_MENTIONS_31_90`, `total ≤ MAX_TOTAL_MENTIONS` and
`momLong ≥ 1.8`. -/
theorem C1_threshold_gate (meta : String → Option SymInfo)
    (counts : String → String → Nat) (ts : List String) (t : String) (h : t ∈ ts) :
    (∃ row, row ∈ rankCandidates meta counts ts ∧ row.ticker = t) ↔
      (MIN_RECENT_MENTIONS ≤ counts "0_7" t ∧
       counts "31_90" t ≤ MAX_OLD_MENTIONS_31_90 ∧
       counts "0_7" t + counts "8_30" t + counts "31_90" t ≤ MAX_TOTAL_MENTIONS ∧
       MIN_MOMENTUM_CUTOFF ≤ ((counts "0_7" t : ℚ) + 1) / ((counts "31_90" t : ℚ) + 1)) := by
  constructor
  · rintro ⟨row, hmem, hticker⟩
    unfold rankCandidates at hmem
    have h2 := (mem_sortByScoreDesc _ _).mp hmem
    rcases List.mem_filterMap.mp h2 with ⟨u, _, heq⟩
    have hfields := prebloomRow_eq_some meta counts u row heq
    have hu : u = t := by
      rw [← hfields.1]
      exact hticker
    subst hu
    exact (prebloomRow_some_iff meta counts u).mp ⟨row, heq⟩
  · intro hth
    rcases (prebloomRow_some_iff meta counts t).mpr hth with ⟨row, heq⟩
    refine ⟨row, ?_, (prebloomRow_eq_some meta counts t row heq).1⟩
    unfold rankCandidates
    exact (mem_sortByScoreDesc _ _).mpr (List.mem_filterMap.mpr ⟨t, h, heq⟩)

/-- C1 witness: the spec scenario `recent=4, mid=0, old=2` passes the first
three thresholds but has `momLong = 5/3 < 1.8`, so `ABCD` is excluded from
the ranked output. -/
theorem C1_threshold_gate_witness :
    "ABCD" ∈ ["ABCD"] ∧
    ¬ (∃ row, row ∈ rankCandidates scenarioMeta scenarioCountsFail ["ABCD"] ∧
        row.ticker = "ABCD") := by
  refine ⟨List.mem_singleton.mpr rfl, fun hex => ?_⟩
  have hth := (C1_threshold_gate scenarioMeta scenarioCountsFail ["ABCD"] "ABCD"
    (List.mem_singleton.mpr rfl)).mp hex
  have hD := hth.2.2.2
  rw [show scenarioCountsFail "0_7" "ABCD" = 4 from by decide,
      show scenarioCountsFail "31_90" "ABCD" = 2 from by decide] at hD
  norm_num [MIN_MOMENTUM_CUTOFF] at hD

/-- C3: for every `ageDays ≥ 0` the bucketer returns exactly one of the
three buckets, `ageDays ≤ 7` mapping to recent (`"0_7"`),
`8 ≤ ageDays ≤ 30` to mid (`"8_30"`) and `ageDays ≥ 31` to old (`"31_90"`);
in particular `7 → recent`, `8 → mid`, `30 → mid`, `31 → old`. -/
theorem C3_bucket_partition (d : Int) (h : 0 ≤ d) :
    (bucket_for_age_days d = "0_7" ∨ bucket_for_age_days d = "8_30" ∨
     bucket_for_age_days d = "31_90") ∧
    (bucket_for_age_days d = "0_7" ↔ d ≤ 7) ∧
    (bucket_for_age_days d = "8_30" ↔ 8 ≤ d ∧ d ≤ 30) ∧
    (bucket_for_age_days d = "31_90" ↔ 31 ≤ d) ∧
    bucket_for_age_days 7 = "0_7" ∧ bucket_for_age_days 8 = "8_30" ∧
    bucket_for_age_days 30 = "8_30" ∧ bucket_for_age_days 31 = "31_90" := by
  refine ⟨?_, ?_, ?_, ?_, by decide, by decide, by decide, by decide⟩ <;>
    unfold bucket_for_age_days <;> split_ifs <;> simp <;> omega

/-- C3 witness: instantiated at `ageDays = 7`. -/
theorem C3_bucket_partition_witness :
    (0 : Int) ≤ 7 ∧ (bucket_for_age_days 7 = "0_7" ↔ (7 : Int) ≤ 7) :=
  ⟨by decide, (C3_bucket_partition 7 (by decide)).2.1⟩

/-- C10: the bucketer is total on all integers, and a negative age (outside
the spec's domain) falls into the recent bucket rather than failing. -/
theorem C10_negative_age_recent (d : Int) (h : d < 0) :
    bucket_for_age_days d = "0_7" := by
  unfold bucket_for_age_days
  rw [if_pos (by omega)]

/-- C10 witness: instantiated at `ageDays = -1`. -/
theorem C10_negative_age_recent_witness :
    (-1 : Int) < 0 ∧ bucket_for_age_days (-1) = "0_7" :=
  ⟨by decide, C10_negative_age_recent (-1) (by decide)⟩

/-- C8: a symbol with no entry in the metadata mapping passes the category
filter, whatever the exclusion switches and keyword lists are. -/
theorem C8_missing_metadata_passes (cfg : FilterConfig) (t : String)
    (meta : String → Option SymInfo) (h : meta t = none) :
    passes_category_filters cfg t meta = true := by
  unfold passes_category_filters
  rw [h]

/-- C8 witness: instantiated with all-excluding switches, exhaustive keyword
lists and an empty metadata mapping. -/
theorem C8_missing_metadata_passes_witness :
    (fun (_ : String) => (none : Option SymInfo)) "XYZ" = none ∧
    passes_category_filters ⟨true, true, true, ["X"], ["Y"]⟩ "XYZ"
      (fun _ => none) = true :=
  ⟨rfl, C8_missing_metadata_passes ⟨true, true, true, ["X"], ["Y"]⟩ "XYZ"
    (fun _ => none) rfl⟩

/-! ## Shape lemmas for the token regex -/

theorem takeWhile_all (p : Char → Bool) (l : List Char) :
    (l.takeWhile p).all p = true := by
  induction l with
  | nil => rfl
  | cons c cs ih =>
    by_cases hc : p c
    · simp [List.takeWhile_cons, hc, ih]
    · simp [List.takeWhile_cons, hc]

theorem matchRun_shape (s tok rem : List Char) (h : matchRun s = some (tok, rem)) :
    tok = s.takeWhile isUpperLetter ∧ 1 ≤ tok.length ∧ tok.length ≤ 6 := by
  simp only [matchRun] at h
  split_ifs at h with hlen
  split at h
  · injection h with h2
    rw [Prod.mk.injEq] at h2
    obtain ⟨h3, h4⟩ := h2
    subst h3
    exact ⟨rfl, hlen.1, hlen.2⟩
  · split_ifs at h with hw
    injection h with h2
    rw [Prod.mk.injEq] at h2
    obtain ⟨h3, h4⟩ := h2
    subst h3
    exact ⟨rfl, hlen.1, hlen.2⟩

theorem lstripDollar_of_upper (l : List Char) (h : l.all isUpperLetter = true) :
    lstripDollar l = l := by
  cases l with
  | nil => rfl
  | cons c cs =>
    have hc : isUpperLetter c = true := by
      simp only [List.all_cons, Bool.and_eq_true] at h
      exact h.1
    unfold lstripDollar
    rw [List.dropWhile_cons, if_neg ?_]
    intro hq
    have hcq : c = '$' := of_decide_eq_true hq
    rw [hcq] at hc
    exact absurd hc (by decide)

theorem matchRun_lstrip (s tok rem : List Char) (h : matchRun s = some (tok, rem)) :
    (lstripDollar tok).all isUpperLetter = true := by
  obtain ⟨htok, -, -⟩ := matchRun_shape s tok rem h
  have hupp : tok.all isUpperLetter = true := htok ▸ takeWhile_all isUpperLetter s
  rw [lstripDollar_of_upper tok hupp]
  exact hupp

theorem tryMatch_lstrip (s tok rem : List Char) (h : tryMatch s = some (tok, rem)) :
    (lstripDollar tok).all isUpperLetter = true := by
  cases s with
  | nil => cases h
  | cons c s2 =>
    simp only [tryMatch] at h
    split_ifs at h with hc
    · cases hm : matchRun s2 with
      | none => rw [hm] at h; cases h
      | some pr =>
        cases pr with
        | mk tk rm =>
          rw [hm] at h
          injection h with h2
          rw [Prod.mk.injEq] at h2
          obtain ⟨h3, h4⟩ := h2
          subst h3
          have hupp : tk.all isUpperLetter = true := by
            rw [(matchRun_shape s2 tk rm hm).1]
            exact takeWhile_all isUpperLetter s2
          have hstep : lstripDollar ('$' :: tk) = lstripDollar tk := by
            unfold lstripDollar
            rw [List.dropWhile_cons, if_pos (by decide)]
          rw [hstep, lstripDollar_of_upper tk hupp]
          exact hupp
    · exact matchRun_lstrip (c :: s2) tok rem h

theorem findallAux_lstrip (fuel : Nat) (s tok : List Char)
    (h : tok ∈ findallAux fuel s) : (lstripDollar tok).all isUpperLetter = true := by
  induction fuel generalizing s with
  | zero => cases h
  | succ f ih =>
    cases s with
    | nil => cases h
    | cons c rest =>
      unfold findallAux at h
      cases htm : tryMatch (c :: rest) with
      | none =>
        rw [htm] at h
        exact ih rest h
      | some pr =>
        cases pr with
        | mk tk rem =>
          rw [htm] at h
          rcases List.mem_cons.mp h with rfl | h2
          · exact tryMatch_lstrip (c :: rest) tok rem htm
          · exact ih rem h2

/-- C4: every token returned by `extract_tickers` is a string of 1–5
uppercase letters, alphabetic in the Python sense, present in the verified
universe, and in neither the stopword set nor the manual exclude set —
whatever the category-filter configuration is. -/
theorem C4_extraction_filters (cfg : FilterConfig) (text : String)
    (verified : List String) (meta : String → Option SymInfo) (t : String)
    (h : t ∈ extract_tickers cfg text verified meta) :
    1 ≤ t.length ∧ t.length ≤ 5 ∧ t.data.all isUpperLetter = true ∧
    pyStrIsAlpha t = true ∧ t ∈ verified ∧ t ∉ STOPWORDS ∧ t ∉ EXCLUDE_TICKERS := by
  unfold extract_tickers at h
  split_ifs at h with hempty
  · cases h
  rcases List.mem_filterMap.mp h with ⟨h0, hh0, hf⟩
  simp only at hf
  split_ifs at hf with hstop hexcl hsane hcat
  cases hf
  obtain ⟨hl1, hl5, halpha, hver⟩ := hsane
  have hupp : (lstripDollar h0).all isUpperLetter = true :=
    findallAux_lstrip _ _ h0 hh0
  exact ⟨hl1, hl5, hupp, halpha, hver, hstop, hexcl⟩

/-- C4 witness: on the text `"I hold $ABCD today"` with universe `{ABCD}`
and empty metadata, extraction returns `ABCD` and the guarantees hold. -/
theorem C4_extraction_filters_witness :
    "ABCD" ∈ extract_tickers defaultFilterConfig "I hold $ABCD today" ["ABCD"]
      (fun _ => none) ∧
    (1 ≤ "ABCD".length ∧ "ABCD".length ≤ 5 ∧
     "ABCD".data.all isUpperLetter = true ∧ pyStrIsAlpha "ABCD" = true ∧
     "ABCD" ∈ ["ABCD"] ∧ "ABCD" ∉ STOPWORDS ∧ "ABCD" ∉ EXCLUDE_TICKERS) :=
  ⟨by decide, C4_extraction_filters defaultFilterConfig "I hold $ABCD today"
    ["ABCD"] (fun _ => none) "ABCD" (by decide)⟩

/-! ## C6: aggregator recording -/

/-- C6 counterexample: the claim that every recorded mention appends its
(sourceGroup, snippet) pair to `sampleContexts` whenever fewer than 3 entries
are stored is false: a comment mention on the empty state leaves the (empty,
hence shorter-than-3) sample list untouched, because the comment loop never
writes `sample_titles`. -/
theorem C6_counterexample :
    ¬ (∀ (st : AggState) (ev : MentionEvent),
        (st.samples ev.ticker).length < 3 →
        (processMention st ev).samples ev.ticker =
          st.samples ev.ticker ++ [(ev.sourceGroup, pySlice140 ev.snippet)]) := by
  intro hclaim
  have h := hclaim initAgg evC6comment (by decide)
  simp [processMention, evC6comment, recordCommentMention, initAgg] at h

/-- C6 (amended): every mention event bumps the ticker's bucket count and
source-group count by one (aggregates spring from the zero default); a POST
mention appends the (sourceGroup, truncated title) pair to the ticker's
samples iff fewer than 3 are stored, while a COMMENT mention never appends;
other tickers' samples are untouched, the 3-entry bound is preserved, and
existing samples are kept (append-only). -/
theorem C6_amended (st : AggState) (ev : MentionEvent) :
    (processMention st ev).counts (bucket_for_age_days ev.ageDays) ev.ticker =
      st.counts (bucket_for_age_days ev.ageDays) ev.ticker + 1 ∧
    (processMention st ev).perSub ev.ticker ev.sourceGroup =
      st.perSub ev.ticker ev.sourceGroup + 1 ∧
    (ev.kind = MentionKind.post → (st.samples ev.ticker).length < 3 →
      (processMention st ev).samples ev.ticker =
        st.samples ev.ticker ++ [(ev.sourceGroup, pySlice140 ev.snippet)]) ∧
    (ev.kind = MentionKind.post → ¬ (st.samples ev.ticker).length < 3 →
      (processMention st ev).samples ev.ticker = st.samples ev.ticker) ∧
    (ev.kind = MentionKind.comment →
      (processMention st ev).samples ev.ticker = st.samples ev.ticker) ∧
    (∀ t2, t2 ≠ ev.ticker → (processMention st ev).samples t2 = st.samples t2) ∧
    ((st.samples ev.ticker).length ≤ 3 →
      ((processMention st ev).samples ev.ticker).length ≤ 3) ∧
    (∃ tail, (processMention st ev).samples ev.ticker =
      st.samples ev.ticker ++ tail) := by
  obtain ⟨k, age, tk, sg, sn⟩ := ev
  cases k with
  | post =>
    refine ⟨by simp [processMention, recordPostMention],
            by simp [processMention, recordPostMention], ?_, ?_, ?_, ?_, ?_, ?_⟩
    · intro _ hlen
      simp [processMention, recordPostMention, hlen]
    · intro _ hlen
      simp [processMention, recordPostMention, hlen]
    · intro hcon
      cases hcon
    · intro t2 ht2
      simp [processMention, recordPostMention, ht2]
    · intro hle
      by_cases hlen : (st.samples tk).length < 3
      · simp [processMention, recordPostMention, hlen]
        omega
      · simp [processMention, recordPostMention, hlen]
        exact hle
    · by_cases hlen : (st.samples tk).length < 3
      · exact ⟨[(sg, pySlice140 sn)], by simp [processMention, recordPostMention, hlen]⟩
      · exact ⟨[], by simp [processMention, recordPostMention, hlen]⟩
  | comment =>
    refine ⟨by simp [processMention, recordCommentMention],
            by simp [processMention, recordCommentMention], ?_, ?_, ?_, ?_, ?_, ?_⟩
    · intro hcon
      cases hcon
    · intro hcon
      cases hcon
    · intro _
      simp [processMention, recordCommentMention]
    · intro t2 _
      simp [processMention, recordCommentMention]
    · intro hle
      simpa [processMention, recordCommentMention] using hle
    · exact ⟨[], by simp [processMention, recordCommentMention]⟩

/-- C6 witness: a post mention of `ABCD` on the empty state appends its
sample pair (0 < 3 samples stored). -/
theorem C6_amended_witness :
    evC6post.kind = MentionKind.post ∧ (initAgg.samples "ABCD").length < 3 ∧
    (processMention initAgg evC6post).samples "ABCD" =
      initAgg.samples "ABCD" ++ [(evC6post.sourceGroup, pySlice140 evC6post.snippet)] :=
  ⟨rfl, by decide, (C6_amended initAgg evC6post).2.2.1 rfl (by decide)⟩

/-! ## C7: first-source precedence in the registry -/

theorem setdefaultUpdate_preserves (m : String → Option SymInfo) (sym s : String)
    (w : SymInfo) (v : SymInfo) (h : m s = some v) :
    setdefaultUpdate m sym w s = some v := by
  unfold setdefaultUpdate
  split_ifs with hnone
  · by_cases hs : s = sym
    · rw [hs] at h
      rw [h] at hnone
      cases hnone
    · simpa [hs] using h
  · exact h

theorem setdefaultUpdate_agree (m1 m2 : String → Option SymInfo) (sym s : String)
    (w : SymInfo) (hs : m1 s = m2 s) :
    setdefaultUpdate m1 sym w s = setdefaultUpdate m2 sym w s := by
  unfold setdefaultUpdate
  by_cases hq : s = sym
  · subst hq
    split_ifs <;> simp_all
  · split_ifs <;> simp_all [hq]

theorem row2Step_preserves (symI nameI etfI : Nat) (sym : String) (v : SymInfo)
    (acc : List String × (String → Option SymInfo)) (parts : List String)
    (h : acc.2 sym = some v) :
    (row2Step symI nameI etfI acc parts).2 sym = some v := by
  simp only [row2Step]
  split_ifs with hlen hok
  · exact h
  · exact setdefaultUpdate_preserves acc.2 _ sym _ v h
  · exact h

theorem foldl_row2Step_preserves (symI nameI etfI : Nat) (sym : String) (v : SymInfo)
    (rows : List (List String)) (acc : List String × (String → Option SymInfo))
    (h : acc.2 sym = some v) :
    (rows.foldl (row2Step symI nameI etfI) acc).2 sym = some v := by
  induction rows generalizing acc with
  | nil => exact h
  | cons r rs ih =>
    exact ih _ (row2Step_preserves symI nameI etfI sym v acc r h)

theorem row2Step_agree (symI nameI etfI : Nat) (sym : String)
    (acc1 acc2 : List String × (String → Option SymInfo)) (parts : List String)
    (h : acc1.2 sym = acc2.2 sym) :
    (row2Step symI nameI etfI acc1 parts).2 sym =
      (row2Step symI nameI etfI acc2 parts).2 sym := by
  simp only [row2Step]
  split_ifs with hlen hok
  · exact h
  · exact setdefaultUpdate_agree acc1.2 acc2.2 _ sym _ h
  · exact h

theorem foldl_row2Step_agree (symI nameI etfI : Nat) (sym : String)
    (rows : List (List String)) (acc1 acc2 : List String × (String → Option SymInfo))
    (h : acc1.2 sym = acc2.2 sym) :
    (rows.foldl (row2Step symI nameI etfI) acc1).2 sym =
      (rows.foldl (row2Step symI nameI etfI) acc2).2 sym := by
  induction rows generalizing acc1 acc2 with
  | nil => exact h
  | cons r rs ih =>
    exact ih _ _ (row2Step_agree symI nameI etfI sym acc1 acc2 r h)

/-- C7: a symbol whose metadata was stored by the first listing source keeps
that record through the whole second-source pass (`setdefault` never
overwrites), and a symbol absent after the first pass gets exactly the
metadata the second source alone would give it. -/
theorem C7_first_source_precedence (symI nameI etfI symI2 nameI2 etfI2 : Nat)
    (rows1 rows2 : List (List String)) (sym : String) :
    (∀ v, (loadRows1 symI nameI etfI rows1).2 sym = some v →
      (rows2.foldl (row2Step symI2 nameI2 etfI2)
        (loadRows1 symI nameI etfI rows1)).2 sym = some v) ∧
    ((loadRows1 symI nameI etfI rows1).2 sym = none →
      (rows2.foldl (row2Step symI2 nameI2 etfI2)
        (loadRows1 symI nameI etfI rows1)).2 sym =
      (rows2.foldl (row2Step symI2 nameI2 etfI2) ([], fun _ => none)).2 sym) := by
  constructor
  · intro v hv
    exact foldl_row2Step_preserves symI2 nameI2 etfI2 sym v rows2 _ hv
  · intro hnone
    exact foldl_row2Step_agree symI2 nameI2 etfI2 sym rows2 _ _ (by rw [hnone])

/-- C7 witness: with `ABCD` in both sources, the kept record is the first
source's `("First Inc.", not an ETF)`. -/
theorem C7_first_source_precedence_witness :
    (loadRows1 0 1 2 rows1C7).2 "ABCD" = some ⟨"First Inc.", false⟩ ∧
    (rows2C7.foldl (row2Step 0 1 2) (loadRows1 0 1 2 rows1C7)).2 "ABCD" =
      some ⟨"First Inc.", false⟩ :=
  ⟨by decide, (C7_first_source_precedence 0 1 2 0 1 2 rows1C7 rows2C7 "ABCD").1
    ⟨"First Inc.", false⟩ (by decide)⟩

/-! ## C5: registry symbol invariants -/

theorem char_toNat_ofNat (n : Nat) (h : n < 55296) : (Char.ofNat n).toNat = n := by
  have hv : n.isValidChar := Or.inl h
  simp only [Char.ofNat]
  rw [dif_pos hv]
  simp [Char.ofNatAux, Char.toNat, UInt32.toNat]

theorem upper_of_alpha_toUpper (c : Char) (h : pyCharIsAlpha (pyUpperChar c) = true) :
    isUpperLetter (pyUpperChar c) = true := by
  simp only [pyUpperChar, Char.toUpper] at h ⊢
  by_cases hc : Char.toNat c ≥ 97 ∧ Char.toNat c ≤ 122
  · rw [if_pos hc] at h ⊢
    unfold isUpperLetter
    rw [char_toNat_ofNat (Char.toNat c - 32) (by omega)]
    exact decide_eq_true (by omega)
  · rw [if_neg hc] at h ⊢
    have ha := of_decide_eq_true h
    exact decide_eq_true (by omega)

theorem accepted_clean (raw : String)
    (h1 : pyUpper raw ≠ "") (h2 : pyStrIsAlpha (pyUpper raw) = true) :
    cleanSymbol (pyUpper raw) := by
  unfold pyStrIsAlpha at h2
  obtain ⟨hne, hall⟩ := Bool.and_eq_true _ _ ▸ h2
  refine ⟨?_, hall, ?_⟩
  · have hd : (pyUpper raw).data ≠ [] := by
      intro hdata
      apply h1
      apply String.ext
      rw [hdata]
    exact List.length_pos.mpr hd
  · rw [List.all_eq_true] at hall ⊢
    intro c hc
    have hmem : c ∈ raw.data.map pyUpperChar := hc
    rcases List.mem_map.mp hmem with ⟨c0, _, rfl⟩
    exact upper_of_alpha_toUpper c0 (hall _ hc)

theorem row1Step_inv (symI nameI etfI : Nat)
    (acc : List String × (String → Option SymInfo)) (parts : List String)
    (hacc : ∀ s ∈ acc.1, cleanSymbol s) :
    ∀ s ∈ (row1Step symI nameI etfI acc parts).1, cleanSymbol s := by
  simp only [row1Step]
  split_ifs with hlen hok
  · exact hacc
  · intro s hs
    rcases List.mem_append.mp hs with hsl | hsr
    · exact hacc s hsl
    · rw [List.mem_singleton] at hsr
      subst hsr
      exact accepted_clean _ hok.1 hok.2
  · exact hacc

theorem row2Step_inv (symI nameI etfI : Nat)
    (acc : List String × (String → Option SymInfo)) (parts : List String)
    (hacc : ∀ s ∈ acc.1, cleanSymbol s) :
    ∀ s ∈ (row2Step symI nameI etfI acc parts).1, cleanSymbol s := by
  simp only [row2Step]
  split_ifs with hlen hok
  · exact hacc
  · intro s hs
    rcases List.mem_append.mp hs with hsl | hsr
    · exact hacc s hsl
    · rw [List.mem_singleton] at hsr
      subst hsr
      exact accepted_clean _ hok.1 hok.2
  · exact hacc

theorem foldl_row1_inv (symI nameI etfI : Nat) (rows : List (List String))
    (acc : List String × (String → Option SymInfo))
    (hacc : ∀ s ∈ acc.1, cleanSymbol s) :
    ∀ s ∈ (rows.foldl (row1Step symI nameI etfI) acc).1, cleanSymbol s := by
  induction rows generalizing acc with
  | nil => exact hacc
  | cons r rs ih => exact ih _ (row1Step_inv symI nameI etfI acc r hacc)

theorem foldl_row2_inv (symI nameI etfI : Nat) (rows : List (List String))
    (acc : List String × (String → Option SymInfo))
    (hacc : ∀ s ∈ acc.1, cleanSymbol s) :
    ∀ s ∈ (rows.foldl (row2Step symI nameI etfI) acc).1, cleanSymbol s := by
  induction rows generalizing acc with
  | nil => exact hacc
  | cons r rs ih => exact ih _ (row2Step_inv symI nameI etfI acc r hacc)

theorem load_fst_clean (txt1 txt2 : String)
    (p : List String × (String → Option SymInfo))
    (h : load_symbol_metadata txt1 txt2 = some p) :
    ∀ s ∈ p.1, cleanSymbol s := by
  unfold load_symbol_metadata at h
  repeat' split at h
  all_goals try simp only [reduceCtorEq] at h
  simp only [Option.some.injEq] at h
  subst h
  exact foldl_row2_inv _ _ _ _ _
    (foldl_row1_inv _ _ _ _ _ (fun s hs => absurd hs (List.not_mem_nil s)))

/-- C5 counterexample: the registry accepts any all-letter symbol with no
length check, so on an input whose symbol column holds `ABCDEF` (6 letters)
the loaded universe contains a symbol of length 6, refuting the claimed
`length ≤ 5` invariant. -/
theorem C5_counterexample :
    ¬ (∀ v, loadVerified txt1C5 txt2C5 = some v →
        ∀ s ∈ v, pyStrIsAlpha s = true ∧ 1 ≤ s.length ∧ s.length ≤ 5 ∧
          s.data.all isUpperLetter = true) := by
  intro hclaim
  have h := hclaim ["ABCDEF", "QRS"] (by decide) "ABCDEF" (by decide)
  exact absurd h.2.2.1 (by decide)

/-- C5 (amended): after the registry load completes every symbol in the
verified universe is nonempty, consists solely of alphabetic characters and
is uppercase; no upper length bound is enforced by the code (the 1–5 bound
of the claim holds only when the listing data itself satisfies it). -/
theorem C5_amended (txt1 txt2 : String) (v : List String)
    (h : loadVerified txt1 txt2 = some v) (s : String) (hs : s ∈ v) :
    1 ≤ s.length ∧ s.data.all pyCharIsAlpha = true ∧
      s.data.all isUpperLetter = true := by
  unfold loadVerified at h
  cases hl : load_symbol_metadata txt1 txt2 with
  | none => rw [hl] at h; cases h
  | some p =>
    rw [hl] at h
    injection h with h2
    subst h2
    exact load_fst_clean txt1 txt2 p hl s hs

/-- C5 witness: on the same input, the well-formed symbol `QRS` satisfies
the amended invariant. -/
theorem C5_amended_witness :
    loadVerified txt1C5 txt2C5 = some ["ABCDEF", "QRS"] ∧
    (1 ≤ "QRS".length ∧ "QRS".data.all pyCharIsAlpha = true ∧
     "QRS".data.all isUpperLetter = true) :=
  ⟨by decide, C5_amended txt1C5 txt2C5 ["ABCDEF", "QRS"] (by decide) "QRS" (by decide)⟩

end PrebloomScout
